import Mathlib

/-!
Verification of the ReAct agent loop in `misteragent/react.py`.

The Python module defines a `ReActAgent` class with:
- the `StepType` enum and the `ReActStep` dataclass (lines 10-19),
- `_format_history`, rendering the step history (lines 60-65),
- `_reason`, splitting a model completion on the marker `"ACTION:"`
  (lines 67-88),
- `_act`, executing generated code with stdout capture and error
  containment (lines 90-118),
- `run`, driving the bounded reason/act/observe loop (lines 120-160).

This file gives a shallow embedding of those operations and proves the
specification claims about them.  Python strings are modelled by `String`
(a list of characters); the Python string builtins used by the source
(`str.split`, `str.strip`, the `in` operator) are embedded as executable
functions on character lists.  The dynamic `ast.parse` / `exec` pair is
modelled by an abstract `PySemantics` record giving, for each code value,
its parse result and its execution outcome (final locals, captured
output, optional exception); a small concrete statement language
`PyCode` provides an executable instance of that record.  Exceptions are
modelled as values carrying their textual description (`str(e)`); the
embedding covers `Exception`-derived errors, the ones `except Exception`
is about — process-terminating control-flow exceptions are out of scope
per the specification.
-/

/- ### Python string primitives -/

/-- The whitespace characters removed by Python `str.strip()`. -/
def isPySpace (c : Char) : Bool :=
  c == ' ' || c == '\t' || c == '\n' || c == '\r' || c == '\x0b' || c == '\x0c'

/-- `str.strip()` on a character list: drop whitespace at both ends. -/
def stripL (l : List Char) : List Char :=
  ((l.dropWhile isPySpace).reverse.dropWhile isPySpace).reverse

/-- Embedding of Python `str.strip()`. -/
def pyStrip (s : String) : String := ⟨stripL s.data⟩

/-- Whether `p` is a prefix of `l` (character-by-character scan). -/
def isPrefixL : List Char → List Char → Bool
  | [], _ => true
  | _ :: _, [] => false
  | a :: as, b :: bs => if a = b then isPrefixL as bs else false

/-- Index of the first occurrence of `sep` in `l`, scanning left to
right, or `none` when `sep` does not occur. -/
def firstOcc (sep : List Char) : List Char → Option Nat
  | [] => if isPrefixL sep [] then some 0 else none
  | c :: rest =>
    if isPrefixL sep (c :: rest) then some 0
    else (firstOcc sep rest).map (· + 1)

/-- Embedding of Python `sub in s` (substring containment). -/
def pyContains (sub s : String) : Bool := (firstOcc sub.data s.data).isSome

/-- Splitter worker: scan the input left to right, cutting at each
non-overlapping occurrence of `sep`; `acc` is the piece accumulated
since the last cut.  `fuel` only drives the recursion; starting it at
the input length makes the fuel-exhausted branch unreachable because
every step consumes at least one character. -/
def splitAux (sep : List Char) : Nat → List Char → List Char → List (List Char)
  | 0, l, acc => [acc ++ l]
  | _ + 1, [], acc => [acc]
  | fuel + 1, c :: rest, acc =>
    if isPrefixL sep (c :: rest) then
      acc :: splitAux sep fuel ((c :: rest).drop sep.length) []
    else
      splitAux sep fuel rest (acc ++ [c])

/-- Embedding of Python `s.split(sep)` for a non-empty separator:
the pieces of `l` between non-overlapping occurrences of `sep`,
leftmost occurrence first. -/
def pySplitL (sep l : List Char) : List (List Char) :=
  splitAux sep l.length l []

/-- Modelled from the spec: "the text before the first occurrence" of
`sep` (the whole string when `sep` does not occur). -/
def beforeFirstL (sep l : List Char) : List Char :=
  match firstOcc sep l with
  | none => l
  | some i => l.take i

/-- Modelled from the spec: "the text after the first occurrence" of
`sep` (everything past the first occurrence; `[]` when `sep` does not
occur, a case the spec does not use). -/
def afterFirstL (sep l : List Char) : List Char :=
  match firstOcc sep l with
  | none => []
  | some i => l.drop (i + sep.length)

/- ### Data model: `StepType`, `ReActStep`, the execution scope -/

/-- `StepType` enum of `react.py` (lines 10-14).  The spec's abstract
kind names map to these source names: REASONING is THOUGHT, CODE_ACTION
is ACTION, OBSERVATION and FINAL_ANSWER keep their names. -/
inductive StepType where
  | THOUGHT
  | ACTION
  | OBSERVATION
  | FINAL_ANSWER

deriving instance DecidableEq for StepType

/-- `step.type.value`: the string value of each enum member. -/
def StepType.value : StepType → String
  | .THOUGHT => "THOUGHT"
  | .ACTION => "ACTION"
  | .OBSERVATION => "OBSERVATION"
  | .FINAL_ANSWER => "FINAL_ANSWER"

/-- The `ReActStep` dataclass (lines 16-19). -/
structure ReActStep where
  type : StepType
  content : String

deriving instance DecidableEq for ReActStep

/-- The execution scope `self.local_vars`: a Python dict from variable
names to values, modelled as an insertion-ordered association list with
integer values. -/
abbrev Scope := List (String × Int)

/-- Dict lookup. -/
def lookupScope : Scope → String → Option Int
  | [], _ => none
  | (y, w) :: rest, x => if y = x then some w else lookupScope rest x

/-- Dict update: overwrite in place when the key exists (keeping its
position, as Python dicts do), else append at the end. -/
def updateScope : Scope → String → Int → Scope
  | [], x, v => [(x, v)]
  | (y, w) :: rest, x, v =>
    if y = x then (x, v) :: rest else (y, w) :: updateScope rest x v

/- ### The `ast.parse` / `exec` primitive -/

/-- A raised Python exception, carrying its textual description
`str(e)`. -/
structure PyExc where
  msg : String

deriving instance DecidableEq for PyExc

/-- Outcome of `exec(code, globals, locals)`: either normal completion
or an exception, in both cases with the text written to stdout and the
locals mapping as `exec` left it (Python mutates the dict in place, so
on an exception the partial mutations stay). -/
inductive ExecOutcome where
  | ok (output : String) (vars : Scope)
  | exc (e : PyExc) (output : String) (vars : Scope)

deriving instance DecidableEq for ExecOutcome

/-- The behaviour of the Python runtime on code values of type `α`:
what `ast.parse` does (`none` = parses, `some e` = raises `e`) and what
`exec code globals locals` does. -/
structure PySemantics (α : Type) where
  parse : α → Option PyExc
  exec : α → Scope → Scope → ExecOutcome

/- ### A concrete executable code language -/

/-- Expressions of the concrete code language. -/
inductive Expr where
  | lit (n : Int)
  | var (name : String)
  | add (a b : Expr)

deriving instance DecidableEq for Expr

/-- Statements of the concrete code language: assignment, `print`, and
`raise`. -/
inductive Stmt where
  | assign (x : String) (e : Expr)
  | print (e : Expr)
  | raiseExc (msg : String)

deriving instance DecidableEq for Stmt

/-- A concrete code fragment: either text that `ast.parse` rejects
(with the `SyntaxError`'s description) or a parsed top-level program. -/
inductive PyCode where
  | malformed (msg : String)
  | program (stmts : List Stmt)

deriving instance DecidableEq for PyCode

/-- Expression evaluation under `exec`'s name resolution: locals first,
then globals, else a `NameError`. -/
def evalExpr (globals locals : Scope) : Expr → Except PyExc Int
  | .lit n => .ok n
  | .var x =>
    match lookupScope locals x with
    | some v => .ok v
    | none =>
      match lookupScope globals x with
      | some v => .ok v
      | none => .error ⟨"name \x27" ++ x ++ "\x27 is not defined"⟩
  | .add a b =>
    match evalExpr globals locals a with
    | .error e => .error e
    | .ok va =>
      match evalExpr globals locals b with
      | .error e => .error e
      | .ok vb => .ok (va + vb)

/-- Statement-list execution: assignments write to the locals dict,
`print` appends `str(v)` plus a newline to the captured output, and the
first exception stops execution keeping the partial locals and
output. -/
def execStmts (globals : Scope) : List Stmt → Scope → String → ExecOutcome
  | [], locals, out => .ok out locals
  | s :: rest, locals, out =>
    match s with
    | .assign x e =>
      match evalExpr globals locals e with
      | .error ex => .exc ex out locals
      | .ok v => execStmts globals rest (updateScope locals x v) out
    | .print e =>
      match evalExpr globals locals e with
      | .error ex => .exc ex out locals
      | .ok v => execStmts globals rest locals (out ++ (toString v ++ "\n"))
    | .raiseExc m => .exc ⟨m⟩ out locals

/-- The concrete `PySemantics` instance over `PyCode`. -/
def pyCodeSemantics : PySemantics PyCode where
  parse
    | .malformed m => some ⟨m⟩
    | .program _ => none
  exec
    | .malformed m, _, locals => .exc ⟨m⟩ "" locals
    | .program stmts, globals, locals => execStmts globals stmts locals ""

/- ### `_act`: execute code, capture stdout, contain errors -/

/-- Embedding of `ReActAgent._act` (lines 90-118).  The source saves
`sys.stdout`, redirects it into a fresh `StringIO`, then inside
`try`: `ast.parse(code)` (a raised `SyntaxError` goes to `except`),
`exec(code, {}, self.local_vars)` (note the fresh empty globals dict),
reads the captured text and returns it, or the no-output sentinel when
it is empty; `except Exception as e` returns
`"Error executing code: " + str(e)`; `finally` restores stdout.
Here the mutation of `self.local_vars` is returned as the second
component, and the redirected buffer is the `output` the semantics
reports, discarded on the error path exactly as the source discards
`redirected_output` there. -/
def _act {α : Type} (sem : PySemantics α) (code : α) (local_vars : Scope) :
    String × Scope :=
  match sem.parse code with
  | some e => ("Error executing code: " ++ e.msg, local_vars)
  | none =>
    match sem.exec code [] local_vars with
    | .ok output vars =>
      (if output = "" then "Code executed successfully with no output" else output,
       vars)
    | .exc e _ vars => ("Error executing code: " ++ e.msg, vars)

/-- The observable operations `_act` performs, in order, for the
temporal claims: saving stdout (line 101), redirecting it (lines
102-103), `ast.parse` (line 107), `exec` (line 110), restoring stdout
(line 118). -/
inductive ActEvent where
  | saveStdout
  | redirectStdout
  | parseStep
  | execStep
  | restoreStdout

deriving instance DecidableEq for ActEvent

/-- Index of the first occurrence of an event in a trace (length of the
trace when absent). -/
def idxOfEvent (e : ActEvent) : List ActEvent → Nat
  | [] => 0
  | x :: xs => if x = e then 0 else idxOfEvent e xs + 1

/-- The event trace of one `_act` call, read off the source statement
order: stdout is saved and redirected (lines 101-103) before the `try`
block, then the code is parsed (line 107), then — only if parsing did
not raise — executed (line 110), and the `finally` clause restores
stdout on every path (line 118). -/
def _actTrace {α : Type} (sem : PySemantics α) (code : α) : List ActEvent :=
  [.saveStdout, .redirectStdout] ++
    (match sem.parse code with
     | some _ => [.parseStep]
     | none => [.parseStep, .execStep]) ++
    [.restoreStdout]

/- ### `_reason`: split the completion on "ACTION:" -/

/-- The response-splitting logic of `ReActAgent._reason` (lines 83-88):
if `"ACTION:" in response`, return
`(response.split("ACTION:")[0].strip(), response.split("ACTION:")[1].strip())`,
else `(response, None)`. -/
def splitResponse (response : String) : String × Option String :=
  if pyContains "ACTION:" response then
    (pyStrip ⟨(pySplitL ("ACTION:").data response.data).getD 0 []⟩,
     some (pyStrip ⟨(pySplitL ("ACTION:").data response.data).getD 1 []⟩))
  else
    (response, none)

/-- Embedding of `ReActAgent._reason` (lines 67-88): one completion
call on the current context, then the marker split.  The model client
is a function of the call index and the context, covering stateful
collaborators; the `task` argument of the source method is unused by
its body and omitted. -/
def _reason (client : Nat → String → String) (callIdx : Nat)
    (context : String) : String × Option String :=
  splitResponse (client callIdx context)

/- ### `_format_history` -/

/-- `"\n".join` on a list of strings. -/
def joinSep : List String → String
  | [] => ""
  | [x] => x
  | x :: y :: xs => x ++ "\n" ++ joinSep (y :: xs)

/-- The loop of `_format_history` (lines 62-64): build the `formatted`
list by appending one f-string block per step. -/
def formatHistoryAux : List ReActStep → List String → List String
  | [], formatted => formatted
  | step :: rest, formatted =>
    formatHistoryAux rest (formatted ++ [step.type.value ++ ":\n" ++ step.content ++ "\n"])

/-- Embedding of `ReActAgent._format_history` (lines 60-65). -/
def formatHistory (history : List ReActStep) : String :=
  joinSep (formatHistoryAux history [])

/- ### `run`: the bounded reason/act/observe loop -/

/-- The mutable per-run agent state: `self.history`, `self.local_vars`,
plus an instrumentation counter of completed `get_completion` calls. -/
structure RunState where
  history : List ReActStep
  local_vars : Scope
  calls : Nat

deriving instance DecidableEq for RunState

/-- The task-framing prompt built at the top of `run` (lines 130-140). -/
def buildPrompt (task : String) : String :=
  "Task: " ++ task ++ "\n\n" ++
  "Solve this step by step:\n" ++
  "1. Think about the solution\n" ++
  "2. Generate Python code to implement it\n" ++
  "3. Observe the results and iterate if needed\n\n" ++
  "Use these markers:\n" ++
  "THOUGHT: for explaining your reasoning\n" ++
  "ACTION: for Python code to execute\n" ++
  "FINAL ANSWER: when you have solved the task"

/-- One iteration of the `run` loop body (lines 143-158): build the
context, call the model (via `_reason`), and either detect the final
answer (returning `some thought`) or record the thought and, when a
code portion exists, execute it recording action and observation. -/
def runStep (client : Nat → String → String) (sem : PySemantics String)
    (prompt : String) (st : RunState) : Option String × RunState :=
  let context := prompt ++ "\n\n" ++ formatHistory st.history
  let tc := _reason client st.calls context
  if pyContains "FINAL ANSWER:" tc.fst then
    (some tc.fst,
     ⟨st.history ++ [⟨StepType.FINAL_ANSWER, tc.fst⟩], st.local_vars, st.calls + 1⟩)
  else
    match tc.snd with
    | none =>
      (none, ⟨st.history ++ [⟨StepType.THOUGHT, tc.fst⟩], st.local_vars, st.calls + 1⟩)
    | some c =>
      let ov := _act sem c st.local_vars
      (none,
       ⟨st.history ++
          [⟨StepType.THOUGHT, tc.fst⟩, ⟨StepType.ACTION, c⟩,
           ⟨StepType.OBSERVATION, ov.fst⟩],
        ov.snd, st.calls + 1⟩)

/-- The `for _ in range(self.max_steps)` loop of `run` (lines 142-160),
by the number of remaining iterations: when the budget is exhausted,
return the literal budget message. -/
def runLoop (client : Nat → String → String) (sem : PySemantics String)
    (prompt : String) : Nat → RunState → String × RunState
  | 0, st => ("Maximum steps reached without finding solution", st)
  | n + 1, st =>
    match runStep client sem prompt st with
    | (some answer, st2) => (answer, st2)
    | (none, st2) => runLoop client sem prompt n st2

/-- Embedding of `ReActAgent.run` (lines 120-160), starting from the
freshly initialised agent state (empty history, empty scope). -/
def run (client : Nat → String → String) (sem : PySemantics String)
    (max_steps : Nat) (task : String) : String × RunState :=
  runLoop client sem (buildPrompt task) max_steps ⟨[], [], 0⟩

/- ### Helper lemmas about the splitter -/

theorem isPrefixL_nil_right (sep : List Char) (h : sep ≠ []) :
    isPrefixL sep [] = false := by
  cases sep with
  | nil => exact absurd rfl h
  | cons a as => rfl

theorem firstOcc_nil (sep : List Char) (h : sep ≠ []) :
    firstOcc sep [] = none := by
  simp [firstOcc, isPrefixL_nil_right sep h]

theorem sep_length_pos (sep : List Char) (h : sep ≠ []) : 1 ≤ sep.length := by
  cases sep with
  | nil => exact absurd rfl h
  | cons a as => simp

/-- The first piece returned by the splitter is the accumulator followed
by the text before the first occurrence of the separator. -/
theorem splitAux_getD_zero (sep : List Char) (h : sep ≠ []) :
    ∀ (fuel : Nat) (l acc : List Char), l.length ≤ fuel →
      (splitAux sep fuel l acc).getD 0 [] = acc ++ beforeFirstL sep l := by
  intro fuel
  induction fuel with
  | zero =>
    intro l acc hl
    have : l = [] := List.length_eq_zero.mp (Nat.le_zero.mp hl)
    subst this
    simp [splitAux, beforeFirstL, firstOcc_nil sep h]
  | succ n ih =>
    intro l acc hl
    cases l with
    | nil => simp [splitAux, beforeFirstL, firstOcc_nil sep h]
    | cons c rest =>
      by_cases hp : isPrefixL sep (c :: rest) = true
      · simp [splitAux, hp, beforeFirstL, firstOcc]
      · have hp2 : isPrefixL sep (c :: rest) = false := by
          simpa using hp
        have hrest : rest.length ≤ n := by
          simp only [List.length_cons] at hl
          omega
        have := ih rest (acc ++ [c]) hrest
        simp only [splitAux, hp2, Bool.false_eq_true, if_false]
        rw [this]
        unfold beforeFirstL
        simp only [firstOcc, hp2, Bool.false_eq_true, if_false]
        cases hfo : firstOcc sep rest with
        | none => simp
        | some j => simp [List.take_succ_cons]

/-- The second piece returned by the splitter is the text between the
first occurrence of the separator and the next occurrence after it (or
the end of the input when there is no further occurrence). -/
theorem splitAux_getD_one (sep : List Char) (h : sep ≠ []) :
    ∀ (fuel : Nat) (l acc : List Char) (i : Nat), l.length ≤ fuel →
      firstOcc sep l = some i →
      (splitAux sep fuel l acc).getD 1 [] =
        beforeFirstL sep (l.drop (i + sep.length)) := by
  intro fuel
  induction fuel with
  | zero =>
    intro l acc i hl hfo
    have : l = [] := List.length_eq_zero.mp (Nat.le_zero.mp hl)
    subst this
    rw [firstOcc_nil sep h] at hfo
    exact absurd hfo (by simp)
  | succ n ih =>
    intro l acc i hl hfo
    cases l with
    | nil =>
      rw [firstOcc_nil sep h] at hfo
      exact absurd hfo (by simp)
    | cons c rest =>
      simp only [List.length_cons] at hl
      by_cases hp : isPrefixL sep (c :: rest) = true
      · have hi : i = 0 := by
          simp only [firstOcc, hp, if_true, Option.some.injEq] at hfo
          omega
        subst hi
        have hdrop : ((c :: rest).drop sep.length).length ≤ n := by
          have h1 : 1 ≤ sep.length := sep_length_pos sep h
          simp only [List.length_drop, List.length_cons]
          omega
        simp only [splitAux, hp, if_true, List.getD_cons_succ, List.getD_cons_zero]
        rw [splitAux_getD_zero sep h n ((c :: rest).drop sep.length) [] hdrop]
        simp
      · have hp2 : isPrefixL sep (c :: rest) = false := by simpa using hp
        simp only [firstOcc, hp2, Bool.false_eq_true, if_false] at hfo
        cases hfo2 : firstOcc sep rest with
        | none => rw [hfo2] at hfo; exact absurd hfo (by simp)
        | some j =>
          rw [hfo2] at hfo
          simp only [Option.map_some', Option.some.injEq] at hfo
          have hij : i = j + 1 := hfo.symm
          subst hij
          have hrest : rest.length ≤ n := by omega
          simp only [splitAux, hp2, Bool.false_eq_true, if_false]
          rw [ih rest (acc ++ [c]) j hrest hfo2]
          have harith : j + 1 + sep.length = (j + sep.length) + 1 := by omega
          rw [harith, List.drop_succ_cons]

/- ### Helper lemmas: strings, scope, history, loop -/

/-- A string ending in a newline is never empty. -/
theorem append_newline_ne_empty (t : String) : t ++ "\n" ≠ "" := by
  cases t with
  | mk l =>
    intro h
    have h2 : l ++ ['\n'] = [] := congrArg String.data h
    simp at h2

theorem lookupScope_updateScope_self (s : Scope) (x : String) (v : Int) :
    lookupScope (updateScope s x v) x = some v := by
  induction s with
  | nil => simp [updateScope, lookupScope]
  | cons p rest ih =>
    obtain ⟨y, w⟩ := p
    by_cases hxy : y = x
    · subst hxy
      simp [updateScope, lookupScope]
    · simp [updateScope, lookupScope, hxy, ih]

theorem formatHistoryAux_eq (history : List ReActStep) :
    ∀ formatted : List String,
      formatHistoryAux history formatted =
        formatted ++
          history.map (fun step => step.type.value ++ ":\n" ++ step.content ++ "\n") := by
  induction history with
  | nil => intro formatted; simp [formatHistoryAux]
  | cons step rest ih =>
    intro formatted
    simp [formatHistoryAux, ih]

theorem runStep_calls (client : Nat → String → String) (sem : PySemantics String)
    (prompt : String) (st : RunState) :
    (runStep client sem prompt st).snd.calls = st.calls + 1 := by
  unfold runStep
  dsimp only
  split
  · rfl
  · split <;> rfl

theorem runStep_not_final (client : Nat → String → String) (sem : PySemantics String)
    (prompt : String) (st : RunState)
    (h : pyContains "FINAL ANSWER:"
        (splitResponse (client st.calls (prompt ++ "\n\n" ++ formatHistory st.history))).fst
        = false) :
    (runStep client sem prompt st).fst = none := by
  unfold runStep _reason
  dsimp only
  simp only [h, Bool.false_eq_true, if_false]
  split <;> rfl

theorem runLoop_calls_le (client : Nat → String → String) (sem : PySemantics String)
    (prompt : String) :
    ∀ (n : Nat) (st : RunState),
      (runLoop client sem prompt n st).snd.calls ≤ st.calls + n := by
  intro n
  induction n with
  | zero => intro st; simp [runLoop]
  | succ m ih =>
    intro st
    unfold runLoop
    cases hs : runStep client sem prompt st with
    | mk o st2 =>
      have hc : st2.calls = st.calls + 1 := by
        have := runStep_calls client sem prompt st
        rw [hs] at this
        exact this
      cases o with
      | some answer => simp only; omega
      | none =>
        simp only
        have := ih st2
        omega

theorem runLoop_no_final (client : Nat → String → String) (sem : PySemantics String)
    (prompt : String)
    (hF : ∀ (k : Nat) (ctx : String),
      pyContains "FINAL ANSWER:" (splitResponse (client k ctx)).fst = false) :
    ∀ (n : Nat) (st : RunState),
      (runLoop client sem prompt n st).fst =
        "Maximum steps reached without finding solution" ∧
      (runLoop client sem prompt n st).snd.calls = st.calls + n := by
  intro n
  induction n with
  | zero => intro st; exact ⟨rfl, rfl⟩
  | succ m ih =>
    intro st
    unfold runLoop
    cases hs : runStep client sem prompt st with
    | mk o st2 =>
      have ho : o = none := by
        have := runStep_not_final client sem prompt st (hF _ _)
        rw [hs] at this
        exact this
      subst ho
      have hc : st2.calls = st.calls + 1 := by
        have := runStep_calls client sem prompt st
        rw [hs] at this
        exact this
      simp only
      obtain ⟨h1, h2⟩ := ih st2
      exact ⟨h1, by omega⟩

/- ### Claim theorems -/

/-- C1: for every code value and every execution scope, `_act` returns a
string (it is a total function of the embedding) and never raises: a
`SyntaxError` from `ast.parse` and any exception from `exec` alike are
converted to the string `"Error executing code: "` followed by the
exception's textual description; on a parse error the scope is
untouched, on a runtime error the scope is whatever `exec` left behind. -/
theorem act_error_containment {α : Type} (sem : PySemantics α) (code : α)
    (local_vars : Scope) :
    (∀ e : PyExc, sem.parse code = some e →
      _act sem code local_vars = ("Error executing code: " ++ e.msg, local_vars)) ∧
    (∀ (e : PyExc) (out : String) (vars2 : Scope),
      sem.parse code = none → sem.exec code [] local_vars = ExecOutcome.exc e out vars2 →
      _act sem code local_vars = ("Error executing code: " ++ e.msg, vars2)) := by
  constructor
  · intro e he
    simp [_act, he]
  · intro e out vars2 hp he
    simp [_act, hp, he]

/-- Witness for C1 at concrete inputs: a syntax error and a runtime
error, both converted to the error string. -/
theorem act_error_containment_witness :
    _act pyCodeSemantics (PyCode.malformed "invalid syntax") [] =
      ("Error executing code: invalid syntax", []) ∧
    _act pyCodeSemantics (PyCode.program [Stmt.raiseExc "division by zero"]) [("a", 2)] =
      ("Error executing code: division by zero", [("a", 2)]) :=
  ⟨(act_error_containment pyCodeSemantics (PyCode.malformed "invalid syntax") []).1
      ⟨"invalid syntax"⟩ rfl,
   (act_error_containment pyCodeSemantics
        (PyCode.program [Stmt.raiseExc "division by zero"]) [("a", 2)]).2
      ⟨"division by zero"⟩ "" [("a", 2)] rfl rfl⟩

/-- C2 counterexample: on a response with two occurrences of "ACTION:",
`_reason`'s split returns as code only the text between the first and
second occurrences ("x"), not the trimmed text after the first
occurrence ("xACTION:y") as the claim states. -/
theorem splitResponse_counterexample :
    splitResponse "tACTION:xACTION:y" = ("t", some "x") ∧
    pyStrip ⟨afterFirstL ("ACTION:").data ("tACTION:xACTION:y").data⟩ = "xACTION:y" ∧
    ("x" : String) ≠ "xACTION:y" :=
  ⟨by decide, by decide, by decide⟩

/-- C2 (amended): for every response containing "ACTION:", the thought
is the text before the first occurrence trimmed, and the code is the
text between the first occurrence and the next occurrence after it (to
the end when there is none), trimmed; for every response without
"ACTION:", the thought is the whole response and the code is absent. -/
theorem splitResponse_spec (response : String) :
    (pyContains "ACTION:" response = true →
      splitResponse response =
        (pyStrip ⟨beforeFirstL ("ACTION:").data response.data⟩,
         some (pyStrip ⟨beforeFirstL ("ACTION:").data
            (afterFirstL ("ACTION:").data response.data)⟩))) ∧
    (pyContains "ACTION:" response = false →
      splitResponse response = (response, none)) := by
  constructor
  · intro hc
    obtain ⟨i, hi⟩ : ∃ i, firstOcc ("ACTION:").data response.data = some i := by
      unfold pyContains at hc
      cases hfo : firstOcc ("ACTION:").data response.data with
      | none => rw [hfo] at hc; simp at hc
      | some i => exact ⟨i, rfl⟩
    have hsep : ("ACTION:").data ≠ [] := by decide
    unfold splitResponse pySplitL
    simp only [hc, if_true]
    rw [splitAux_getD_zero ("ACTION:").data hsep response.data.length response.data []
        (le_refl response.data.length)]
    rw [splitAux_getD_one ("ACTION:").data hsep response.data.length response.data [] i
        (le_refl response.data.length) hi]
    unfold afterFirstL
    rw [hi]
    simp
  · intro hc
    unfold splitResponse
    simp [hc]

/-- Witness for C2's amended theorem at the spec's own example input. -/
theorem splitResponse_spec_witness :
    pyContains "ACTION:" "Think X\nACTION:\nprint(1)" = true ∧
    splitResponse "Think X\nACTION:\nprint(1)" =
      (pyStrip ⟨beforeFirstL ("ACTION:").data ("Think X\nACTION:\nprint(1)").data⟩,
       some (pyStrip ⟨beforeFirstL ("ACTION:").data
          (afterFirstL ("ACTION:").data ("Think X\nACTION:\nprint(1)").data)⟩)) :=
  ⟨by decide, (splitResponse_spec "Think X\nACTION:\nprint(1)").1 (by decide)⟩

/-- C3: in any iteration whose parsed thought portion contains
"FINAL ANSWER:", the loop appends exactly one FINAL_ANSWER step holding
that thought text, returns that text, makes exactly one model call in
the iteration and none after it (the returned state counts one more
call, whatever budget remained), and executes no code — the scope is
unchanged and no ACTION or OBSERVATION step is recorded — even when the
response also carried a code portion (`code` is arbitrary here). -/
theorem run_final_answer (client : Nat → String → String) (sem : PySemantics String)
    (prompt : String) (n : Nat) (st : RunState) (thought : String) (code : Option String)
    (hsplit : splitResponse (client st.calls (prompt ++ "\n\n" ++ formatHistory st.history)) =
      (thought, code))
    (hfinal : pyContains "FINAL ANSWER:" thought = true) :
    runLoop client sem prompt (n + 1) st =
      (thought,
       ⟨st.history ++ [⟨StepType.FINAL_ANSWER, thought⟩], st.local_vars, st.calls + 1⟩) := by
  unfold runLoop runStep _reason
  dsimp only
  rw [hsplit]
  dsimp only
  simp [hfinal]

/-- Witness for C3: a client answering with both markers terminates at
once, with one FINAL_ANSWER step, one model call, and no execution. -/
theorem run_final_answer_witness :
    runLoop (fun _ _ => "FINAL ANSWER: 42\nACTION:\nprint(1)")
        ⟨fun _ => none, fun _ _ l => ExecOutcome.ok "" l⟩ "p" 3 ⟨[], [], 0⟩ =
      ("FINAL ANSWER: 42",
       ⟨[⟨StepType.FINAL_ANSWER, "FINAL ANSWER: 42"⟩], [], 1⟩) :=
  run_final_answer (fun _ _ => "FINAL ANSWER: 42\nACTION:\nprint(1)")
    ⟨fun _ => none, fun _ _ l => ExecOutcome.ok "" l⟩ "p" 2 ⟨[], [], 0⟩
    "FINAL ANSWER: 42" (some "print(1)") (by decide) (by decide)

/-- C4: with a model collaborator whose completions never put
"FINAL ANSWER:" in the thought portion, `run` performs exactly
`max_steps` iterations — one model call each — and returns the literal
budget message; and unconditionally, no run ever makes more than
`max_steps` model calls. -/
theorem run_budget :
    (∀ (client : Nat → String → String) (sem : PySemantics String)
        (max_steps : Nat) (task : String),
      (∀ (k : Nat) (ctx : String),
        pyContains "FINAL ANSWER:" (splitResponse (client k ctx)).fst = false) →
      (run client sem max_steps task).fst =
        "Maximum steps reached without finding solution" ∧
      (run client sem max_steps task).snd.calls = max_steps) ∧
    (∀ (client : Nat → String → String) (sem : PySemantics String)
        (max_steps : Nat) (task : String),
      (run client sem max_steps task).snd.calls ≤ max_steps) := by
  constructor
  · intro client sem max_steps task hF
    have h := runLoop_no_final client sem (buildPrompt task) hF max_steps ⟨[], [], 0⟩
    unfold run
    exact ⟨h.1, by have h2 := h.2; simpa using h2⟩
  · intro client sem max_steps task
    have h := runLoop_calls_le client sem (buildPrompt task) max_steps ⟨[], [], 0⟩
    unfold run
    simpa using h

/-- Witness for C4: a client that only ever says "thinking" exhausts a
budget of 3 with exactly 3 model calls. -/
theorem run_budget_witness :
    (run (fun _ _ => "thinking") ⟨fun _ => none, fun _ _ l => ExecOutcome.ok "" l⟩
        3 "t").fst = "Maximum steps reached without finding solution" ∧
    (run (fun _ _ => "thinking") ⟨fun _ => none, fun _ _ l => ExecOutcome.ok "" l⟩
        3 "t").snd.calls = 3 :=
  run_budget.1 (fun _ _ => "thinking") ⟨fun _ => none, fun _ _ l => ExecOutcome.ok "" l⟩
    3 "t" (fun _ _ => by
      show pyContains "FINAL ANSWER:" (splitResponse "thinking").fst = false
      decide)

/-- C5 counterexample: in `_act`'s event trace, the stdout redirection
(index 1, after saving stdout at index 0) happens before the syntax
validation (index 2), so parsing does not precede every side
effect as the claim states. -/
theorem act_order_counterexample :
    idxOfEvent ActEvent.redirectStdout (_actTrace pyCodeSemantics (PyCode.program [])) = 1 ∧
    idxOfEvent ActEvent.parseStep (_actTrace pyCodeSemantics (PyCode.program [])) = 2 ∧
    ¬ (idxOfEvent ActEvent.parseStep (_actTrace pyCodeSemantics (PyCode.program [])) <
       idxOfEvent ActEvent.redirectStdout (_actTrace pyCodeSemantics (PyCode.program []))) :=
  ⟨by decide, by decide, by decide⟩

/-- C5 (amended): in every `_act` invocation, the stdout stream is
redirected before syntax validation; syntax validation happens strictly
before the code is executed (execution only ever appears after parsing
in the trace); and the original stream is restored as the final
operation on every path. -/
theorem act_order {α : Type} (sem : PySemantics α) (code : α) :
    idxOfEvent ActEvent.redirectStdout (_actTrace sem code) <
      idxOfEvent ActEvent.parseStep (_actTrace sem code) ∧
    (ActEvent.execStep ∈ _actTrace sem code →
      idxOfEvent ActEvent.parseStep (_actTrace sem code) <
        idxOfEvent ActEvent.execStep (_actTrace sem code)) ∧
    (_actTrace sem code).getLast? = some ActEvent.restoreStdout := by
  cases h : sem.parse code with
  | none =>
    simp only [_actTrace, h]
    refine ⟨by decide, fun _ => by decide, by decide⟩
  | some e =>
    simp only [_actTrace, h]
    refine ⟨by decide, fun hmem => absurd hmem (by decide), by decide⟩

/-- Witness for C5's amended theorem: on code that parses and runs, the
redirect precedes the parse and the parse precedes the execution. -/
theorem act_order_witness :
    idxOfEvent ActEvent.redirectStdout
        (_actTrace pyCodeSemantics (PyCode.program [Stmt.print (Expr.lit 1)])) <
      idxOfEvent ActEvent.parseStep
        (_actTrace pyCodeSemantics (PyCode.program [Stmt.print (Expr.lit 1)])) ∧
    idxOfEvent ActEvent.parseStep
        (_actTrace pyCodeSemantics (PyCode.program [Stmt.print (Expr.lit 1)])) <
      idxOfEvent ActEvent.execStep
        (_actTrace pyCodeSemantics (PyCode.program [Stmt.print (Expr.lit 1)])) :=
  ⟨(act_order pyCodeSemantics (PyCode.program [Stmt.print (Expr.lit 1)])).1,
   (act_order pyCodeSemantics (PyCode.program [Stmt.print (Expr.lit 1)])).2.1 (by decide)⟩

/-- C6: for every code value whose parse raises a syntax error and
every scope, `_act` returns a string starting with
"Error executing code:" and returns the variable mapping exactly as it
received it. -/
theorem act_syntax_error {α : Type} (sem : PySemantics α) (code : α)
    (local_vars : Scope) (e : PyExc) (hparse : sem.parse code = some e) :
    (∃ rest : String,
      (_act sem code local_vars).fst = "Error executing code:" ++ rest) ∧
    (_act sem code local_vars).snd = local_vars := by
  constructor
  · refine ⟨" " ++ e.msg, ?_⟩
    have hlit : ("Error executing code: " : String) = "Error executing code:" ++ " " := by
      decide
    simp only [_act, hparse]
    rw [hlit, String.append_assoc]
  · simp [_act, hparse]

/-- Witness for C6 at a concrete syntax error and a non-empty scope. -/
theorem act_syntax_error_witness :
    (∃ rest : String,
      (_act pyCodeSemantics (PyCode.malformed "unexpected EOF while parsing")
          [("y", 2)]).fst = "Error executing code:" ++ rest) ∧
    (_act pyCodeSemantics (PyCode.malformed "unexpected EOF while parsing")
        [("y", 2)]).snd = [("y", 2)] :=
  act_syntax_error pyCodeSemantics (PyCode.malformed "unexpected EOF while parsing")
    [("y", 2)] ⟨"unexpected EOF while parsing"⟩ rfl

/-- C7: for every code value that parses and executes without raising,
`_act` returns the literal no-output sentinel when nothing was written
to stdout, and returns exactly the captured text, unaltered, when it is
non-empty. -/
theorem act_success {α : Type} (sem : PySemantics α) (code : α) (local_vars : Scope)
    (out : String) (vars2 : Scope)
    (hparse : sem.parse code = none)
    (hexec : sem.exec code [] local_vars = ExecOutcome.ok out vars2) :
    (out = "" →
      _act sem code local_vars = ("Code executed successfully with no output", vars2)) ∧
    (out ≠ "" → _act sem code local_vars = (out, vars2)) := by
  constructor
  · intro h
    simp [_act, hparse, hexec, h]
  · intro h
    simp [_act, hparse, hexec, h]

/-- Witness for C7: a silent program yields the sentinel; a program
printing 5 yields exactly "5\n". -/
theorem act_success_witness :
    _act pyCodeSemantics (PyCode.program []) [] =
      ("Code executed successfully with no output", []) ∧
    _act pyCodeSemantics (PyCode.program [Stmt.print (Expr.lit 5)]) [] = ("5\n", []) :=
  ⟨(act_success pyCodeSemantics (PyCode.program []) [] "" [] rfl rfl).1 rfl,
   (act_success pyCodeSemantics (PyCode.program [Stmt.print (Expr.lit 5)]) [] "5\n" []
      rfl rfl).2 (by decide)⟩

/-- C8: a variable assigned at top level by one `_act` call is readable
and mutable by later `_act` calls on the resulting scope, and reading
it against a freshly created empty scope is a NameError; the scope is
threaded, never reset, and `_act` hands `exec` a fresh empty globals
mapping (the `[]` in its definition, mirroring `exec(code, {},
self.local_vars)`), so the explicit scope is the only persisting
channel. -/
theorem scope_persistence (v : Int) (s : Scope) :
    lookupScope
        ((_act pyCodeSemantics (PyCode.program [Stmt.assign "x" (Expr.lit v)]) s).snd)
        "x" = some v ∧
    (_act pyCodeSemantics (PyCode.program [Stmt.print (Expr.var "x")])
        ((_act pyCodeSemantics (PyCode.program [Stmt.assign "x" (Expr.lit v)]) s).snd)).fst =
      toString v ++ "\n" ∧
    lookupScope
        ((_act pyCodeSemantics
            (PyCode.program [Stmt.assign "x" (Expr.add (Expr.var "x") (Expr.lit 1))])
            ((_act pyCodeSemantics (PyCode.program [Stmt.assign "x" (Expr.lit v)]) s).snd)).snd)
        "x" = some (v + 1) ∧
    (_act pyCodeSemantics (PyCode.program [Stmt.print (Expr.var "x")]) []).fst =
      "Error executing code: name \x27x\x27 is not defined" := by
  have hsnd : (_act pyCodeSemantics (PyCode.program [Stmt.assign "x" (Expr.lit v)]) s).snd =
      updateScope s "x" v := rfl
  rw [hsnd]
  have hx : lookupScope (updateScope s "x" v) "x" = some v :=
    lookupScope_updateScope_self s "x" v
  refine ⟨hx, ?_, ?_, by decide⟩
  · simp [_act, pyCodeSemantics, execStmts, evalExpr, hx, String.empty_append,
      append_newline_ne_empty]
  · simp [_act, pyCodeSemantics, execStmts, evalExpr, hx, lookupScope_updateScope_self]

/-- C9: `_format_history` renders one block per step, in insertion
order, each block being the step's kind name, a colon, a newline, the
step's text and a newline, with the blocks joined by "\n" (hence
separated by blank lines); it is a pure function of the history, shown
here in closed form and on the spec's three-step example (the spec's
kind names REASONING and CODE_ACTION are the source's THOUGHT and
ACTION). -/
theorem format_history_spec :
    (∀ history : List ReActStep,
      formatHistory history =
        joinSep (history.map
          (fun step => step.type.value ++ ":\n" ++ step.content ++ "\n"))) ∧
    formatHistory
        [⟨StepType.THOUGHT, "a"⟩, ⟨StepType.ACTION, "b"⟩, ⟨StepType.OBSERVATION, "c"⟩] =
      "THOUGHT:\na\n\nACTION:\nb\n\nOBSERVATION:\nc\n" := by
  constructor
  · intro history
    unfold formatHistory
    rw [formatHistoryAux_eq]
    simp
  · decide

/-- C10: when execution raises after having written to stdout, `_act`
returns exactly the error string built from the exception's description
— the conclusion does not depend on the captured output `out`, which is
discarded. -/
theorem act_discards_output_on_error {α : Type} (sem : PySemantics α) (code : α)
    (local_vars : Scope) (e : PyExc) (out : String) (vars2 : Scope)
    (hparse : sem.parse code = none)
    (hexec : sem.exec code [] local_vars = ExecOutcome.exc e out vars2) :
    _act sem code local_vars = ("Error executing code: " ++ e.msg, vars2) := by
  simp [_act, hparse, hexec]

/-- Witness for C10: a program that prints "7" and then raises; the
printed text appears nowhere in the observation. -/
theorem act_discards_output_on_error_witness :
    _act pyCodeSemantics (PyCode.program [Stmt.print (Expr.lit 7), Stmt.raiseExc "boom"])
        [] = ("Error executing code: boom", []) :=
  act_discards_output_on_error pyCodeSemantics
    (PyCode.program [Stmt.print (Expr.lit 7), Stmt.raiseExc "boom"]) []
    ⟨"boom"⟩ "7\n" [] rfl rfl
